import Mathlib

/-!
Verification of the AI job recommendation engine (`recommender.py`).

The Python source is shallowly embedded: Python strings become Lean `String`
(manipulated as `List Char`), Python `int` becomes `Nat`/`Int`, float scores
are idealised as `ℚ`, fallible operations (pandas `iloc`, which raises
`IndexError` out of range) return `Option`, and the external
SentenceTransformer + FAISS search pipeline is an oracle parameter
`search : String → Nat → List Hit` standing for
`index.search(normalize(model.encode([resume_text])), top_k)`.
ASCII idealisation: Python's `str.lower`, `str.strip`, `\d` and `\s` are
modelled on their ASCII behaviour, which covers the fixed skill vocabulary
and the regular-expression patterns of the source.
-/

namespace JobRec

/-- Python whitespace (ASCII): the characters stripped by `str.strip()` and
matched by `\s`. -/
def isPySpace (c : Char) : Bool :=
  c = ' ' || c = '\t' || c = '\n' || c = '\r' || c = '\x0b' || c = '\x0c'

/-- Python `str.lower()` on a character list (ASCII case). -/
def pyLowerL (l : List Char) : List Char :=
  l.map Char.toLower

/-- Python `str.lower()`. -/
def pyLowerS (s : String) : String :=
  String.mk (pyLowerL s.toList)

/-- Python `str.strip()` on a character list: drop whitespace from both ends. -/
def pyStripL (l : List Char) : List Char :=
  ((l.dropWhile isPySpace).reverse.dropWhile isPySpace).reverse

/-- Python `str.strip()`. -/
def pyStrip (s : String) : String :=
  String.mk (pyStripL s.toList)

/-- pandas `Series.fillna("")` on one cell: a missing (NaN) text field becomes
the empty string. -/
def fillna (o : Option String) : String :=
  o.getD ""

/-- Python `str(cell)` on a possibly-missing text cell: `str(nan)` is `"nan"`. -/
def pyStr (o : Option String) : String :=
  match o with
  | none => "nan"
  | some s => s

/-- `needle` occurs at the start of `hay`. -/
def listStartsWith : List Char → List Char → Bool
  | [], _ => true
  | _ :: _, [] => false
  | a :: as, b :: bs => a = b && listStartsWith as bs

/-- Python `needle in hay` substring containment. -/
def containsSub (needle : List Char) : List Char → Bool
  | [] => listStartsWith needle []
  | b :: bs => listStartsWith needle (b :: bs) || containsSub needle bs

/-- Python `str.split(",")`: split at every comma, keeping empty parts; the
result always has exactly (number of commas + 1) parts. -/
def splitComma : List Char → List (List Char)
  | [] => [[]]
  | c :: cs =>
    match splitComma cs with
    | [] => [[c]]
    | p :: ps => if c = ',' then [] :: p :: ps else (c :: p) :: ps

/-- The fixed skill vocabulary `COMMON_SKILLS` of `recommender.py`. -/
def COMMON_SKILLS : List String :=
  ["python", "java", "javascript", "typescript", "c++", "c#", "swift", "kotlin",
   "react", "angular", "vue", "node.js", "flask", "django", "spring",
   "sql", "mysql", "postgresql", "mongodb", "redis", "oracle",
   "aws", "azure", "gcp", "docker", "kubernetes", "terraform", "jenkins",
   "machine learning", "deep learning", "nlp", "computer vision",
   "tensorflow", "pytorch", "scikit-learn", "pandas", "numpy",
   "git", "linux", "rest api", "graphql", "microservices",
   "spark", "kafka", "airflow", "tableau", "power bi",
   "html", "css", "agile", "scrum", "devops", "ci/cd",
   "blockchain", "solidity", "web3", "ethereum",
   "data analysis", "statistics", "excel", "r"]

/-- `extract_skills_from_text`: the vocabulary entries occurring as substrings
of the lowercased text; `list(set(found))` deduplicates. -/
def extract_skills_from_text (text : String) : List String :=
  let text_lower := pyLowerS text
  (COMMON_SKILLS.filter (fun skill => containsSub skill.toList text_lower.toList)).dedup

/-- `int(...)` on a non-empty digit string. -/
def digitsToNat (ds : List Char) : Nat :=
  ds.foldl (fun n c => n * 10 + (c.toNat - 48)) 0

/-- Consume the literal word `w` from the front of `l`, or fail. -/
def chompLit : List Char → List Char → Option (List Char)
  | [], l => some l
  | _ :: _, [] => none
  | a :: as, b :: bs => if a = b then chompLit as bs else none

/-- Pattern 1 of `extract_experience_years`, matched at the start of `l`:
`(\d+)\+?\s*years?\s*(?:of\s*)?experience`.  Greedy maximal munch is
equivalent to Python's backtracking here because no quantified class
overlaps the character that starts its continuation. -/
def pat1At (l : List Char) : Option Nat :=
  let ds := l.takeWhile Char.isDigit
  let r0 := l.dropWhile Char.isDigit
  if ds.isEmpty then none else
  let r1 := match r0 with | '+' :: t => t | _ => r0
  let r2 := r1.dropWhile isPySpace
  match chompLit ['y', 'e', 'a', 'r'] r2 with
  | none => none
  | some r3 =>
    let r4 := match r3 with | 's' :: t => t | _ => r3
    let r5 := r4.dropWhile isPySpace
    let r6 := match chompLit ['o', 'f'] r5 with
              | some t => t.dropWhile isPySpace
              | none => r5
    match chompLit ['e', 'x', 'p', 'e', 'r', 'i', 'e', 'n', 'c', 'e'] r6 with
    | some _ => some (digitsToNat ds)
    | none => none

/-- Pattern 2, matched at the start of `l`: `experience[:\s]+(\d+)\+?\s*years?`. -/
def pat2At (l : List Char) : Option Nat :=
  match chompLit ['e', 'x', 'p', 'e', 'r', 'i', 'e', 'n', 'c', 'e'] l with
  | none => none
  | some r0 =>
    let cls := fun c => c = ':' || isPySpace c
    let sep := r0.takeWhile cls
    let r1 := r0.dropWhile cls
    if sep.isEmpty then none else
    let ds := r1.takeWhile Char.isDigit
    let r2 := r1.dropWhile Char.isDigit
    if ds.isEmpty then none else
    let r3 := match r2 with | '+' :: t => t | _ => r2
    let r4 := r3.dropWhile isPySpace
    match chompLit ['y', 'e', 'a', 'r'] r4 with
    | none => none
    | some _ => some (digitsToNat ds)

/-- Pattern 3, matched at the start of `l`:
`(\d+)\s*yrs?\s*(?:of\s*)?(?:work\s*)?experience`. -/
def pat3At (l : List Char) : Option Nat :=
  let ds := l.takeWhile Char.isDigit
  let r0 := l.dropWhile Char.isDigit
  if ds.isEmpty then none else
  let r1 := r0.dropWhile isPySpace
  match chompLit ['y', 'r'] r1 with
  | none => none
  | some r2 =>
    let r3 := match r2 with | 's' :: t => t | _ => r2
    let r4 := r3.dropWhile isPySpace
    let r5 := match chompLit ['o', 'f'] r4 with
              | some t => t.dropWhile isPySpace
              | none => r4
    let r6 := match chompLit ['w', 'o', 'r', 'k'] r5 with
              | some t => t.dropWhile isPySpace
              | none => r5
    match chompLit ['e', 'x', 'p', 'e', 'r', 'i', 'e', 'n', 'c', 'e'] r6 with
    | some _ => some (digitsToNat ds)
    | none => none

/-- `re.search`: try the pattern at each start position, leftmost first. -/
def searchAt (f : List Char → Option Nat) : List Char → Option Nat
  | [] => f []
  | b :: bs =>
    match f (b :: bs) with
    | some n => some n
    | none => searchAt f bs

/-- `extract_experience_years`: the three patterns are tried in order against
the lowercased text; the first match's captured integer is returned, else 0. -/
def extract_experience_years (text : String) : Nat :=
  let l := pyLowerL text.toList
  match searchAt pat1At l with
  | some n => n
  | none =>
    match searchAt pat2At l with
    | some n => n
    | none =>
      match searchAt pat3At l with
      | some n => n
      | none => 0

/-- The combined text built row-wise by `load_jobs`:
`df["title"].fillna("") + ". " + df["description"].fillna("") + ". " +
"Required skills: " + df["skills"].fillna("") + ". " + "Level: " +
df["experience_level"].fillna("")`. -/
def combined_text_src (title description skills experience_level : Option String) : String :=
  fillna title ++ ". " ++ fillna description ++ ". " ++ "Required skills: " ++
    fillna skills ++ ". " ++ "Level: " ++ fillna experience_level

/-- The fixed template named by the spec,
`"{title}. {description}. Required skills: {skills}. Level: {experience_level}"`,
rendered over already-defaulted fields: stated for comparison with
`combined_text_src`. -/
def combined_text_template (title description skills experience_level : String) : String :=
  title ++ ". " ++ description ++ ". Required skills: " ++ skills ++
    ". Level: " ++ experience_level

/-- One row of the job catalog as `recommend` reads it; text cells are
`Option String` with `none` for a missing (NaN) cell. -/
structure JobRow where
  job_id : Int
  title : Option String
  company : Option String
  location : Option String
  description : Option String
  skills : Option String
  experience_level : Option String
  salary_range : Option String
deriving Repr, DecidableEq

/-- One `(idx, score)` pair of `zip(indices[0], scores[0])` from
`index.search`; FAISS pads with `idx = -1` when `k` exceeds the index size. -/
structure Hit where
  idx : Int
  score : ℚ
deriving Repr, DecidableEq

/-- One dict of the list returned by `JobRecommender.recommend`. -/
structure RecResult where
  rank : Nat
  job_id : Int
  title : Option String
  company : Option String
  location : Option String
  description : Option String
  skills : Option String
  experience_level : Option String
  salary_range : Option String
  match_score : ℚ
  matched_skills : List String
  skill_match_pct : ℚ
deriving Repr, DecidableEq

/-- Round half to even on `ℚ` (Python's `round` to an integer). -/
def rhe (x : ℚ) : ℤ :=
  let f := ⌊x⌋
  if x - f < 1 / 2 then f
  else if 1 / 2 < x - f then f + 1
  else if f % 2 = 0 then f else f + 1

/-- Python `round(x, 1)`: round half to even at one decimal, idealised on `ℚ`. -/
def pyRound1 (x : ℚ) : ℚ :=
  (rhe (x * 10) : ℚ) / 10

/-- `set(s.strip().lower() for s in str(row["skills"]).split(","))`: the job's
skill set, as a deduplicated list. -/
def jobSkillList (raw : Option String) : List String :=
  ((splitComma (pyStr raw).toList).map
    (fun p => String.mk (pyLowerL (pyStripL p)))).dedup

/-- pandas `df.iloc[idx]` row access: negative indices count from the end;
out-of-range access raises `IndexError`, modelled as `none`. -/
def ilocGet (jobs : List JobRow) (idx : Int) : Option JobRow :=
  let j : Int := if idx < 0 then (jobs.length : Int) + idx else idx
  if j < 0 then none else jobs.get? j.toNat

/-- The dict appended for one kept hit of the `recommend` loop. -/
def mkResult (rank : Nat) (row : JobRow) (score : ℚ) (resume_text : String) : RecResult :=
  let resume_skills := extract_skills_from_text resume_text
  let job_skills := jobSkillList row.skills
  let matched := resume_skills.filter (fun s => decide (s ∈ job_skills))
  { rank := rank
    job_id := row.job_id
    title := row.title
    company := row.company
    location := row.location
    description := row.description
    skills := row.skills
    experience_level := row.experience_level
    salary_range := row.salary_range
    match_score := pyRound1 (score * 100)
    matched_skills := matched
    skill_match_pct :=
      pyRound1 ((matched.length : ℚ) / ((max job_skills.length 1 : ℕ) : ℚ) * 100) }

/-- The `for rank, (idx, score) in enumerate(zip(...), start=1)` loop of
`recommend`: hits with `idx == -1` are skipped (the rank counter still
advances), a failing `iloc` aborts the whole call (`none`). -/
def processHits (jobs : List JobRow) (resume_text : String) (rank : Nat) :
    List Hit → Option (List RecResult)
  | [] => some []
  | h :: rest =>
    if h.idx = -1 then processHits jobs resume_text (rank + 1) rest
    else
      match ilocGet jobs h.idx with
      | none => none
      | some row =>
        match processHits jobs resume_text (rank + 1) rest with
        | none => none
        | some res => some (mkResult rank row h.score resume_text :: res)

/-- `JobRecommender.recommend`.  The external encode-and-search pipeline is the
oracle `search`; `none` models a raised exception. -/
def recommend (jobs : List JobRow) (search : String → Nat → List Hit)
    (resume_text : String) (top_k : Nat) : Option (List RecResult) :=
  if pyStrip resume_text = "" then some []
  else processHits jobs resume_text 1 (search resume_text top_k)

/-- Last index of `c` in `l`, or `-1` when absent (Python `str.rfind`). -/
def rfindIdx (c : Char) (l : List Char) : Int :=
  match l.reverse.findIdx? (fun b => b = c) with
  | some i => (l.length : Int) - 1 - i
  | none => -1

/-- `os.path.splitext(p)[1]` (posix): the extension starts at the last dot of
the basename, provided a non-dot character precedes it within the basename. -/
def splitextExt (p : List Char) : List Char :=
  let sepIdx := rfindIdx '/' p
  let dotIdx := rfindIdx '.' p
  if sepIdx < dotIdx then
    if (List.range p.length).any
        (fun j => decide (sepIdx < (j : Int)) && decide ((j : Int) < dotIdx) &&
          !(p.getD j '.' = '.')) then
      p.drop dotIdx.toNat
    else []
  else []

/-- `os.path.splitext(file_path)[1].lower()`. -/
def splitextExtLower (file_path : String) : String :=
  String.mk (pyLowerL (splitextExt file_path.toList))

/-- `extract_text_from_pdf`: PyMuPDF page reads are the oracle `readPdf`
(yielding whatever text was accumulated, `""` when `fitz.open` fails at once);
the result is stripped. -/
def extract_text_from_pdf (readPdf : String → String) (pdf_path : String) : String :=
  pyStrip (readPdf pdf_path)

/-- `extract_text_from_txt`: the file read is the oracle `readTxt`; a
successful read is stripped, a raised exception (`none`) degrades to `""`. -/
def extract_text_from_txt (readTxt : String → Option String) (txt_path : String) : String :=
  match readTxt txt_path with
  | some s => pyStrip s
  | none => ""

/-- `extract_resume_text`: dispatch on the lowercased extension; unsupported
extensions yield `""`. -/
def extract_resume_text (readPdf : String → String) (readTxt : String → Option String)
    (file_path : String) : String :=
  let ext := splitextExtLower file_path
  if ext = ".pdf" then extract_text_from_pdf readPdf file_path
  else if ext = ".txt" ∨ ext = ".text" then extract_text_from_txt readTxt file_path
  else ""

/-- `JobRecommender.recommend_from_file`. -/
def recommend_from_file (jobs : List JobRow) (search : String → Nat → List Hit)
    (readPdf : String → String) (readTxt : String → Option String)
    (file_path : String) (top_k : Nat) : Option (List RecResult) :=
  let text := extract_resume_text readPdf readTxt file_path
  if text = "" then some []
  else recommend jobs search text top_k

/-! ### Rounding lemmas -/

lemma floor_le_rhe (x : ℚ) : ⌊x⌋ ≤ rhe x := by
  simp only [rhe]
  split_ifs <;> omega

lemma rhe_le_floor_succ (x : ℚ) : rhe x ≤ ⌊x⌋ + 1 := by
  simp only [rhe]
  split_ifs <;> omega

lemma rhe_mono {x y : ℚ} (h : x ≤ y) : rhe x ≤ rhe y := by
  rcases lt_or_eq_of_le (Int.floor_mono h) with hf | hf
  · calc rhe x ≤ ⌊x⌋ + 1 := rhe_le_floor_succ x
      _ ≤ ⌊y⌋ := by omega
      _ ≤ rhe y := floor_le_rhe y
  · have hxy : x - (⌊x⌋ : ℚ) ≤ y - (⌊x⌋ : ℚ) := by linarith
    simp only [rhe, ← hf]
    split_ifs <;> first | omega | linarith

lemma pyRound1_mono {x y : ℚ} (h : x ≤ y) : pyRound1 x ≤ pyRound1 y := by
  have h10 : x * 10 ≤ y * 10 := by linarith
  have := rhe_mono h10
  unfold pyRound1
  exact (div_le_div_iff_of_pos_right (by norm_num)).mpr (by exact_mod_cast this)

lemma pyRound1_zero : pyRound1 0 = 0 := by
  with_unfolding_all rfl

lemma pyRound1_hundred : pyRound1 100 = 100 := by
  with_unfolding_all rfl

lemma pyRound1_nonneg {x : ℚ} (h : 0 ≤ x) : 0 ≤ pyRound1 x := by
  have := pyRound1_mono h
  rwa [pyRound1_zero] at this

lemma pyRound1_le_hundred {x : ℚ} (h : x ≤ 100) : pyRound1 x ≤ 100 := by
  have := pyRound1_mono h
  rwa [pyRound1_hundred] at this

/-! ### Strip, split and skill-extraction lemmas -/

lemma pyStripL_eq_nil {l : List Char} (h : ∀ c ∈ l, isPySpace c = true) :
    pyStripL l = [] := by
  unfold pyStripL
  rw [List.dropWhile_eq_nil_iff.mpr h]
  rfl

lemma pyStrip_eq_empty {t : String} (h : ∀ c ∈ t.toList, isPySpace c = true) :
    pyStrip t = "" := by
  unfold pyStrip
  rw [pyStripL_eq_nil h]

lemma splitComma_ne_nil (l : List Char) : splitComma l ≠ [] := by
  induction l with
  | nil => simp [splitComma]
  | cons c cs ih =>
    simp only [splitComma]
    rcases h : splitComma cs with _ | ⟨p, ps⟩
    · simp
    · split_ifs <;> simp

lemma one_le_splitComma_length (l : List Char) : 1 ≤ (splitComma l).length := by
  have := splitComma_ne_nil l
  cases h : splitComma l with
  | nil => exact absurd h this
  | cons p ps => simp

lemma jobSkillList_ne_nil (raw : Option String) : jobSkillList raw ≠ [] := by
  unfold jobSkillList
  rw [ne_eq, List.dedup_eq_nil, List.map_eq_nil_iff]
  exact splitComma_ne_nil _

lemma one_le_jobSkillList_length (raw : Option String) :
    1 ≤ (jobSkillList raw).length := by
  have := jobSkillList_ne_nil raw
  cases h : jobSkillList raw with
  | nil => exact absurd h this
  | cons p ps => simp

lemma extract_skills_nodup (t : String) : (extract_skills_from_text t).Nodup :=
  List.nodup_dedup _

lemma mem_extract_skills {t : String} {s : String} :
    s ∈ extract_skills_from_text t ↔
      s ∈ COMMON_SKILLS ∧ containsSub s.toList (pyLowerS t).toList = true := by
  unfold extract_skills_from_text
  rw [List.mem_dedup, List.mem_filter]

lemma extract_skills_subset {t : String} {s : String}
    (h : s ∈ extract_skills_from_text t) : s ∈ COMMON_SKILLS :=
  (mem_extract_skills.mp h).1

/-! ### Result-construction lemmas -/

lemma mkResult_matched_le (t : String) (raw : Option String) :
    ((extract_skills_from_text t).filter
      (fun s => decide (s ∈ jobSkillList raw))).length ≤ (jobSkillList raw).length := by
  set l := (extract_skills_from_text t).filter (fun s => decide (s ∈ jobSkillList raw)) with hl
  have hnd : l.Nodup := List.Nodup.filter _ (extract_skills_nodup t)
  have hsub : ∀ x ∈ l, x ∈ jobSkillList raw := by
    intro x hx
    rw [hl, List.mem_filter] at hx
    exact of_decide_eq_true hx.2
  calc l.length = l.toFinset.card := (List.toFinset_card_of_nodup hnd).symm
    _ ≤ (jobSkillList raw).toFinset.card := by
        apply Finset.card_le_card
        intro x hx
        rw [List.mem_toFinset] at hx ⊢
        exact hsub x hx
    _ ≤ (jobSkillList raw).length := List.toFinset_card_le _

lemma empty_not_skill : ∀ s ∈ COMMON_SKILLS, s ≠ "" := by decide

lemma jobSkillList_empty_field : jobSkillList (some "") = [""] := by decide

/-- The six skill-overlap facts of one constructed result. -/
lemma mkResult_pct_props (rank : Nat) (row : JobRow) (score : ℚ) (t : String) :
    (mkResult rank row score t).matched_skills =
      (extract_skills_from_text t).filter
        (fun s => decide (s ∈ jobSkillList (mkResult rank row score t).skills)) ∧
    (mkResult rank row score t).skill_match_pct =
      pyRound1 (((mkResult rank row score t).matched_skills.length : ℚ) /
        ((max (jobSkillList (mkResult rank row score t).skills).length 1 : ℕ) : ℚ) * 100) ∧
    0 ≤ (mkResult rank row score t).skill_match_pct ∧
    (mkResult rank row score t).skill_match_pct ≤ 100 ∧
    ((mkResult rank row score t).matched_skills = [] →
      (mkResult rank row score t).skill_match_pct = 0) ∧
    ((mkResult rank row score t).skills = some "" →
      (mkResult rank row score t).skill_match_pct = 0) := by
  have hskills : (mkResult rank row score t).skills = row.skills := rfl
  have hmatched : (mkResult rank row score t).matched_skills =
      (extract_skills_from_text t).filter (fun s => decide (s ∈ jobSkillList row.skills)) := rfl
  have hpct : (mkResult rank row score t).skill_match_pct =
      pyRound1 ((((extract_skills_from_text t).filter
          (fun s => decide (s ∈ jobSkillList row.skills))).length : ℚ) /
        ((max (jobSkillList row.skills).length 1 : ℕ) : ℚ) * 100) := rfl
  have hm := mkResult_matched_le t row.skills
  set m := ((extract_skills_from_text t).filter
    (fun s => decide (s ∈ jobSkillList row.skills))).length with hmdef
  set n := (jobSkillList row.skills).length with hndef
  have hq0 : (0 : ℚ) ≤ (m : ℚ) / ((max n 1 : ℕ) : ℚ) * 100 := by positivity
  have hq100 : (m : ℚ) / ((max n 1 : ℕ) : ℚ) * 100 ≤ 100 := by
    have hmn : (m : ℚ) ≤ ((max n 1 : ℕ) : ℚ) := by
      exact_mod_cast le_trans hm (Nat.le_max_left n 1)
    have hpos : (0 : ℚ) < ((max n 1 : ℕ) : ℚ) := by
      have : (1 : ℕ) ≤ max n 1 := Nat.le_max_right n 1
      exact_mod_cast Nat.lt_of_lt_of_le Nat.zero_lt_one this
    have h1 : (m : ℚ) / ((max n 1 : ℕ) : ℚ) ≤ 1 := (div_le_one hpos).mpr hmn
    calc (m : ℚ) / ((max n 1 : ℕ) : ℚ) * 100 ≤ 1 * 100 := by
          exact mul_le_mul_of_nonneg_right h1 (by norm_num)
      _ = 100 := by norm_num
  refine ⟨by rw [hmatched, hskills], by rw [hpct, hmatched, hskills], ?_, ?_, ?_, ?_⟩
  · rw [hpct]
    exact pyRound1_nonneg hq0
  · rw [hpct]
    exact pyRound1_le_hundred hq100
  · intro hnil
    rw [hmatched] at hnil
    rw [hpct, hmdef, hnil]
    simp only [List.length_nil, Nat.cast_zero, zero_div, zero_mul]
    exact pyRound1_zero
  · intro hempty
    rw [hskills] at hempty
    have hjl : jobSkillList row.skills = [""] := by
      rw [hempty]
      exact jobSkillList_empty_field
    have hnil : (extract_skills_from_text t).filter
        (fun s => decide (s ∈ jobSkillList row.skills)) = [] := by
      rw [List.filter_eq_nil_iff]
      intro a ha
      rw [hjl]
      simp only [decide_eq_true_eq, List.mem_singleton]
      exact empty_not_skill a (extract_skills_subset ha)
    rw [hpct, hmdef, hnil]
    simp only [List.length_nil, Nat.cast_zero, zero_div, zero_mul]
    exact pyRound1_zero

/-! ### Loop lemmas -/

lemma processHits_nil (jobs : List JobRow) (t : String) (rank : Nat) :
    processHits jobs t rank [] = some [] := rfl

lemma processHits_cons (jobs : List JobRow) (t : String) (rank : Nat)
    (hit : Hit) (rest : List Hit) :
    processHits jobs t rank (hit :: rest) =
      if hit.idx = -1 then processHits jobs t (rank + 1) rest
      else
        match ilocGet jobs hit.idx with
        | none => none
        | some row =>
          match processHits jobs t (rank + 1) rest with
          | none => none
          | some res => some (mkResult rank row hit.score t :: res) := rfl

lemma processHits_all_pad {jobs : List JobRow} {t : String} :
    ∀ {hits : List Hit} {rank : Nat}, (∀ h ∈ hits, h.idx = -1) →
      processHits jobs t rank hits = some [] := by
  intro hits
  induction hits with
  | nil => intro rank _; rfl
  | cons hit rest ih =>
    intro rank hall
    rw [processHits_cons, if_pos (hall hit (by simp))]
    exact ih fun h hm => hall h (by simp [hm])

lemma processHits_length {jobs : List JobRow} {t : String} :
    ∀ {hits : List Hit} {rank : Nat} {res : List RecResult},
      processHits jobs t rank hits = some res → res.length ≤ hits.length := by
  intro hits
  induction hits with
  | nil =>
    intro rank res h
    rw [processHits_nil] at h
    cases h
    simp
  | cons hit rest ih =>
    intro rank res h
    rw [processHits_cons] at h
    by_cases hidx : hit.idx = -1
    · rw [if_pos hidx] at h
      exact Nat.le_succ_of_le (ih h)
    · rw [if_neg hidx] at h
      rcases hrow : ilocGet jobs hit.idx with _ | row <;> rw [hrow] at h
      · cases h
      · rcases hrec : processHits jobs t (rank + 1) rest with _ | res' <;> rw [hrec] at h
        · cases h
        · cases h
          simpa using Nat.succ_le_succ (ih hrec)

lemma processHits_mem {jobs : List JobRow} {t : String} :
    ∀ {hits : List Hit} {rank : Nat} {res : List RecResult},
      processHits jobs t rank hits = some res →
      ∀ x ∈ res, ∃ rk hit row, hit ∈ hits ∧ ilocGet jobs hit.idx = some row ∧
        x = mkResult rk row hit.score t := by
  intro hits
  induction hits with
  | nil =>
    intro rank res h
    rw [processHits_nil] at h
    cases h
    intro x hx
    cases hx
  | cons hit rest ih =>
    intro rank res h
    rw [processHits_cons] at h
    by_cases hidx : hit.idx = -1
    · rw [if_pos hidx] at h
      intro x hx
      obtain ⟨rk, hit', row, hmem, hrow, hx'⟩ := ih h x hx
      exact ⟨rk, hit', row, by simp [hmem], hrow, hx'⟩
    · rw [if_neg hidx] at h
      rcases hrow : ilocGet jobs hit.idx with _ | row <;> rw [hrow] at h
      · cases h
      · rcases hrec : processHits jobs t (rank + 1) rest with _ | res' <;> rw [hrec] at h
        · cases h
        · cases h
          intro x hx
          rcases List.mem_cons.mp hx with hx' | hx'
          · exact ⟨rank, hit, row, by simp, hrow, hx'⟩
          · obtain ⟨rk, hit', row', hmem, hrow', hx''⟩ := ih hrec x hx'
            exact ⟨rk, hit', row', by simp [hmem], hrow', hx''⟩

lemma processHits_rank {jobs : List JobRow} {t : String} :
    ∀ {hits : List Hit} {rank : Nat} {res : List RecResult},
      List.Pairwise (fun a b : Hit => a.idx = -1 → b.idx = -1) hits →
      processHits jobs t rank hits = some res →
      ∀ i (hi : i < res.length), (res.get ⟨i, hi⟩).rank = rank + i := by
  intro hits
  induction hits with
  | nil =>
    intro rank res _ h i hi
    rw [processHits_nil] at h
    cases h
    cases hi
  | cons hit rest ih =>
    intro rank res hpw h i hi
    obtain ⟨hhead, htail⟩ := List.pairwise_cons.mp hpw
    rw [processHits_cons] at h
    by_cases hidx : hit.idx = -1
    · rw [if_pos hidx] at h
      have hall : ∀ h' ∈ rest, h'.idx = -1 := fun h' hm => hhead h' hm hidx
      rw [processHits_all_pad hall] at h
      cases h
      cases hi
    · rw [if_neg hidx] at h
      rcases hrow : ilocGet jobs hit.idx with _ | row <;> rw [hrow] at h
      · cases h
      · rcases hrec : processHits jobs t (rank + 1) rest with _ | res' <;> rw [hrec] at h
        · cases h
        · cases h
          match i with
          | 0 => rfl
          | j + 1 =>
            have hj : j < res'.length := by simpa using hi
            have := ih htail hrec j hj
            rw [List.get_cons_succ]
            rw [this]
            omega

lemma processHits_sorted {jobs : List JobRow} {t : String} :
    ∀ {hits : List Hit} {rank : Nat} {res : List RecResult},
      List.Pairwise (fun a b : Hit => b.score ≤ a.score) hits →
      processHits jobs t rank hits = some res →
      List.Pairwise (fun r1 r2 : RecResult => r2.match_score ≤ r1.match_score) res := by
  intro hits
  induction hits with
  | nil =>
    intro rank res _ h
    rw [processHits_nil] at h
    cases h
    exact List.Pairwise.nil
  | cons hit rest ih =>
    intro rank res hpw h
    obtain ⟨hhead, htail⟩ := List.pairwise_cons.mp hpw
    rw [processHits_cons] at h
    by_cases hidx : hit.idx = -1
    · rw [if_pos hidx] at h
      exact ih htail h
    · rw [if_neg hidx] at h
      rcases hrow : ilocGet jobs hit.idx with _ | row <;> rw [hrow] at h
      · cases h
      · rcases hrec : processHits jobs t (rank + 1) rest with _ | res' <;> rw [hrec] at h
        · cases h
        · cases h
          rw [List.pairwise_cons]
          constructor
          · intro r2 hr2
            obtain ⟨rk, hit', row', hmem, _, hx⟩ := processHits_mem hrec r2 hr2
            have hsc : hit'.score ≤ hit.score := hhead hit' hmem
            have : r2.match_score = pyRound1 (hit'.score * 100) := by rw [hx]; rfl
            rw [this]
            show pyRound1 (hit'.score * 100) ≤ pyRound1 (hit.score * 100)
            exact pyRound1_mono (by nlinarith)
          · exact ih htail hrec

/-! ### Concrete fixtures used by the witness theorems -/

/-- A one-job catalog mirroring the spec's concrete scenario. -/
def jobs0 : List JobRow :=
  [⟨1, some "Backend Engineer", some "Acme", some "Remote", some "Great job",
    some "python, sql, docker", some "senior", some "100k"⟩]

/-- A search oracle returning one hit on job row 0 with score 9/10. -/
def search0 : String → Nat → List Hit :=
  fun _ _ => [⟨0, 9 / 10⟩]

/-- The result `recommend jobs0 search0 "python docker" 1` evaluates to. -/
def res0 : List RecResult :=
  [⟨1, 1, some "Backend Engineer", some "Acme", some "Remote", some "Great job",
    some "python, sql, docker", some "senior", some "100k", 90,
    ["python", "docker"], 667 / 10⟩]

/-- The single entry of `res0`. -/
def r0 : RecResult :=
  ⟨1, 1, some "Backend Engineer", some "Acme", some "Remote", some "Great job",
    some "python, sql, docker", some "senior", some "100k", 90,
    ["python", "docker"], 667 / 10⟩

lemma dot_required_merge : (". " : String) ++ "Required skills: " = ". Required skills: " := by
  with_unfolding_all rfl

lemma dot_level_merge : (". " : String) ++ "Level: " = ". Level: " := by
  with_unfolding_all rfl

/-! ### Claim theorems -/

/-- C1: for every resume text and every `top_k`, given the FAISS search
contract (at most `top_k` hits, scores non-increasing, `-1` padding only at
the tail), a successful `recommend` returns at most `top_k` results, ranks
are exactly `1, 2, …` in order, `match_score` is non-increasing down the
list, and each result's `match_score` is `round(score * 100, 1)` for the
score of its hit. -/
theorem recommend_rank_score_invariants
    (jobs : List JobRow) (search : String → Nat → List Hit) (t : String) (k : Nat)
    (res : List RecResult)
    (hlen : (search t k).length ≤ k)
    (hsorted : List.Pairwise (fun a b : Hit => b.score ≤ a.score) (search t k))
    (hpad : List.Pairwise (fun a b : Hit => a.idx = -1 → b.idx = -1) (search t k))
    (hrec : recommend jobs search t k = some res) :
    res.length ≤ k ∧
    (∀ i (hi : i < res.length), (res.get ⟨i, hi⟩).rank = i + 1) ∧
    List.Pairwise (fun r1 r2 : RecResult => r2.match_score ≤ r1.match_score) res ∧
    (∀ r ∈ res, ∃ hit ∈ search t k, r.match_score = pyRound1 (hit.score * 100)) := by
  unfold recommend at hrec
  split_ifs at hrec with hstrip
  · cases hrec
    exact ⟨by simp, fun i hi => absurd hi (by simp), List.Pairwise.nil, by simp⟩
  · refine ⟨le_trans (processHits_length hrec) hlen, ?_, processHits_sorted hsorted hrec, ?_⟩
    · intro i hi
      have := processHits_rank hpad hrec i hi
      omega
    · intro r hr
      obtain ⟨rk, hit, row, hmem, _, hx⟩ := processHits_mem hrec r hr
      exact ⟨hit, hmem, by rw [hx]; rfl⟩

/-- Witness for C1 at the concrete one-job fixture. -/
theorem recommend_rank_score_invariants_witness : res0.length ≤ 1 :=
  (recommend_rank_score_invariants jobs0 search0 "python docker" 1 res0
    (by simp [search0]) (by simp [search0]) (by simp [search0])
    (by with_unfolding_all rfl)).1

/-- C2: every result of a successful `recommend` has
`matched_skills = resume skills ∩ job skills` (the job skills being the
comma-split, trimmed, lowercased `skills` string) and
`skill_match_pct = round(|matched| / max(|job_skills|, 1) * 100, 1)`; the
percentage always lies in `[0, 100]`, is `0` when the intersection is empty,
and an empty `skills` field divides by `max(1,1) = 1` and yields `0`. -/
theorem recommend_skill_match_pct
    (jobs : List JobRow) (search : String → Nat → List Hit) (t : String) (k : Nat)
    (res : List RecResult)
    (hrec : recommend jobs search t k = some res) :
    ∀ r ∈ res,
      r.matched_skills =
        (extract_skills_from_text t).filter (fun s => decide (s ∈ jobSkillList r.skills)) ∧
      r.skill_match_pct =
        pyRound1 ((r.matched_skills.length : ℚ) /
          ((max (jobSkillList r.skills).length 1 : ℕ) : ℚ) * 100) ∧
      0 ≤ r.skill_match_pct ∧
      r.skill_match_pct ≤ 100 ∧
      (r.matched_skills = [] → r.skill_match_pct = 0) ∧
      (r.skills = some "" → r.skill_match_pct = 0) := by
  unfold recommend at hrec
  split_ifs at hrec with hstrip
  · cases hrec
    simp
  · intro r hr
    obtain ⟨rk, hit, row, _, _, hx⟩ := processHits_mem hrec r hr
    rw [hx]
    exact mkResult_pct_props rk row hit.score t

/-- Witness for C2 at the concrete one-job fixture. -/
theorem recommend_skill_match_pct_witness :
    0 ≤ r0.skill_match_pct ∧ r0.skill_match_pct ≤ 100 :=
  have h := recommend_skill_match_pct jobs0 search0 "python docker" 1 res0
    (by with_unfolding_all rfl) r0 (List.mem_singleton.mpr rfl)
  ⟨h.2.2.1, h.2.2.2.1⟩

/-- C3: on whitespace-only resume text (the empty string included) and any
`top_k`, `recommend` returns the empty list without error, and its value does
not depend on the encode-and-search oracle: no embedding or index search is
performed. -/
theorem recommend_whitespace_empty
    (jobs : List JobRow) (search1 search2 : String → Nat → List Hit)
    (t : String) (k : Nat)
    (hws : ∀ c ∈ t.toList, isPySpace c = true) :
    recommend jobs search1 t k = some [] ∧
    recommend jobs search1 t k = recommend jobs search2 t k := by
  have hstrip : pyStrip t = "" := pyStrip_eq_empty hws
  constructor <;> simp [recommend, hstrip]

/-- Witness for C3 on a two-space resume text. -/
theorem recommend_whitespace_empty_witness :
    recommend jobs0 search0 "  " 3 = some [] :=
  (recommend_whitespace_empty jobs0 search0 (fun _ _ => []) "  " 3 (by decide)).1

/-- C4: `extract_experience_years` tries the three patterns in their fixed
order on the lowercased text, returns the first captured integer, returns 0
when none match, and returns 3 on the spec's concrete resume text. -/
theorem extract_experience_years_pattern_order :
    (∀ t n, searchAt pat1At (pyLowerL t.toList) = some n →
      extract_experience_years t = n) ∧
    (∀ t n, searchAt pat1At (pyLowerL t.toList) = none →
      searchAt pat2At (pyLowerL t.toList) = some n →
      extract_experience_years t = n) ∧
    (∀ t n, searchAt pat1At (pyLowerL t.toList) = none →
      searchAt pat2At (pyLowerL t.toList) = none →
      searchAt pat3At (pyLowerL t.toList) = some n →
      extract_experience_years t = n) ∧
    (∀ t, searchAt pat1At (pyLowerL t.toList) = none →
      searchAt pat2At (pyLowerL t.toList) = none →
      searchAt pat3At (pyLowerL t.toList) = none →
      extract_experience_years t = 0) ∧
    extract_experience_years "I have 3 years experience with python and docker" = 3 := by
  refine ⟨?_, ?_, ?_, ?_, by decide⟩
  · intro t n h1
    simp only [extract_experience_years]
    rw [h1]
  · intro t n h1 h2
    simp only [extract_experience_years]
    rw [h1, h2]
  · intro t n h1 h2 h3
    simp only [extract_experience_years]
    rw [h1, h2, h3]
  · intro t h1 h2 h3
    simp only [extract_experience_years]
    rw [h1, h2, h3]

/-- Witness for C4: the second pattern fires when the first does not. -/
theorem extract_experience_years_pattern_order_witness :
    extract_experience_years "experience: 7 years" = 7 :=
  extract_experience_years_pattern_order.2.1 "experience: 7 years" 7
    (by decide) (by decide)

/-- C5: `extract_skills_from_text` depends on the text only through its
lowercasing, its output is a deduplicated sublist of `COMMON_SKILLS`
containing exactly the vocabulary entries occurring as substrings of the
lowercased input, and `"Python, React"` and `"PYTHON, react"` give identical
results. -/
theorem extract_skills_case_insensitive :
    (∀ a b : String, pyLowerS a = pyLowerS b →
      extract_skills_from_text a = extract_skills_from_text b) ∧
    (∀ t s, s ∈ extract_skills_from_text t ↔
      s ∈ COMMON_SKILLS ∧ containsSub s.toList (pyLowerS t).toList = true) ∧
    (∀ t, (extract_skills_from_text t).Nodup) ∧
    (extract_skills_from_text "Python, React").toFinset =
      (extract_skills_from_text "PYTHON, react").toFinset := by
  have hlow : ∀ a b : String, pyLowerS a = pyLowerS b →
      extract_skills_from_text a = extract_skills_from_text b := by
    intro a b h
    unfold extract_skills_from_text
    rw [h]
  refine ⟨hlow, fun t s => mem_extract_skills, extract_skills_nodup, ?_⟩
  rw [hlow "Python, React" "PYTHON, react" (by decide)]

/-- Witness for C5: case-insensitivity applied at a concrete pair. -/
theorem extract_skills_case_insensitive_witness :
    extract_skills_from_text "AWS" = extract_skills_from_text "aws" :=
  extract_skills_case_insensitive.1 "AWS" "aws" (by decide)

/-- C6: the `combined_text` built by `load_jobs` equals the spec's fixed
template applied to the four source fields with missing fields replaced by
the empty string, and it is a deterministic pure function of those fields. -/
theorem combined_text_matches_template
    (title description skills experience_level : Option String) :
    combined_text_src title description skills experience_level =
      combined_text_template (fillna title) (fillna description) (fillna skills)
        (fillna experience_level) ∧
    combined_text_src title description skills experience_level =
      combined_text_src title description skills experience_level := by
  constructor
  · unfold combined_text_src combined_text_template
    rw [String.append_assoc _ ". " "Required skills: ", dot_required_merge,
      String.append_assoc _ ". " "Level: ", dot_level_merge]
  · rfl

/-- C8: `recommend_from_file` returns the empty list (not an error) whenever
the file extension is unsupported or extraction yields the empty string, and
a failed text read degrades to the empty string. -/
theorem recommend_from_file_unsupported_or_empty :
    (∀ (jobs : List JobRow) (search : String → Nat → List Hit)
      (readPdf : String → String) (readTxt : String → Option String)
      (path : String) (k : Nat),
      splitextExtLower path ∉ ([".pdf", ".txt", ".text"] : List String) →
      recommend_from_file jobs search readPdf readTxt path k = some []) ∧
    (∀ (jobs : List JobRow) (search : String → Nat → List Hit)
      (readPdf : String → String) (readTxt : String → Option String)
      (path : String) (k : Nat),
      extract_resume_text readPdf readTxt path = "" →
      recommend_from_file jobs search readPdf readTxt path k = some []) ∧
    (∀ (readTxt : String → Option String) (path : String),
      readTxt path = none → extract_text_from_txt readTxt path = "") := by
  refine ⟨?_, ?_, ?_⟩
  · intro jobs search readPdf readTxt path k hext
    simp only [List.mem_cons, List.mem_singleton, not_or] at hext
    obtain ⟨h1, h2, h3⟩ := hext
    have hempty : extract_resume_text readPdf readTxt path = "" := by
      unfold extract_resume_text
      rw [if_neg h1, if_neg (by simp [h2, h3])]
    simp [recommend_from_file, hempty]
  · intro jobs search readPdf readTxt path k hempty
    simp [recommend_from_file, hempty]
  · intro readTxt path h
    simp [extract_text_from_txt, h]

/-- Witness for C8 at a `.doc` path with dummy oracles. -/
theorem recommend_from_file_unsupported_or_empty_witness :
    recommend_from_file jobs0 search0 (fun _ => "text") (fun _ => some "text")
      "resume.doc" 5 = some [] :=
  recommend_from_file_unsupported_or_empty.1 jobs0 search0 (fun _ => "text")
    (fun _ => some "text") "resume.doc" 5 (by decide)

/-- C9: every member of `matched_skills` in any result of a successful
`recommend` belongs to the fixed vocabulary `COMMON_SKILLS`: the intersection
is taken with the extracted resume skill set, itself a sublist of the
vocabulary, so a job skill label outside the vocabulary can never appear. -/
theorem matched_skills_subset_vocabulary
    (jobs : List JobRow) (search : String → Nat → List Hit) (t : String) (k : Nat)
    (res : List RecResult)
    (hrec : recommend jobs search t k = some res) :
    ∀ r ∈ res, ∀ s ∈ r.matched_skills, s ∈ COMMON_SKILLS := by
  unfold recommend at hrec
  split_ifs at hrec with hstrip
  · cases hrec
    simp
  · intro r hr s hs
    obtain ⟨rk, hit, row, _, _, hx⟩ := processHits_mem hrec r hr
    rw [hx] at hs
    have : s ∈ (extract_skills_from_text t).filter
        (fun s => decide (s ∈ jobSkillList row.skills)) := hs
    exact extract_skills_subset (List.mem_filter.mp this).1

/-- Witness for C9 at the concrete one-job fixture. -/
theorem matched_skills_subset_vocabulary_witness : "python" ∈ COMMON_SKILLS :=
  matched_skills_subset_vocabulary jobs0 search0 "python docker" 1 res0
    (by with_unfolding_all rfl) r0 (List.mem_singleton.mpr rfl) "python"
    (by decide)

/-- C10: splitting any string on commas yields at least one part, so the job
skill set always has at least one element, the `max(…, 1)` guard is never the
binding case, and an empty or missing `skills` field yields the singleton set
`{""}` or `{"nan"}` rather than the empty set. -/
theorem job_skills_split_nonempty :
    (∀ raw : Option String, 1 ≤ (jobSkillList raw).length ∧
      max (jobSkillList raw).length 1 = (jobSkillList raw).length) ∧
    (∀ s : String, 1 ≤ (splitComma s.toList).length) ∧
    jobSkillList (some "") = [""] ∧
    jobSkillList none = ["nan"] := by
  refine ⟨?_, fun s => one_le_splitComma_length s.toList, jobSkillList_empty_field, by decide⟩
  intro raw
  have h := one_le_jobSkillList_length raw
  exact ⟨h, Nat.max_eq_left h⟩

end JobRec
